import Mathlib

/-!
Shallow embedding of the `awesome-axios-logger` repository: the string
sanitizer, URL path extraction, content-type classification, size
formatting, filename building (`src/utils.ts`), the best-effort log writer
(`src/saveLog.ts`) and the three axios interceptor hooks
(`src/createAxiosLogger.ts`), together with proofs of the specification's
claims about them.

JavaScript values are modelled by the inductive `JSValue`; a
self-referential (cyclic) object, which a Lean inductive cannot contain
directly, is modelled by the dedicated constructor `vCyclic`, on which
`JSON.stringify` fails exactly as it throws on cycles in JavaScript.
Strings are modelled as Lean strings (JavaScript's UTF-16 length maps to
character count, which agrees on the material appearing here).
-/

namespace AxiosLogger

/-- Model of a JavaScript runtime value as far as the logger inspects it.
`vCyclic` stands for a self-referential structure: `JSON.stringify` throws
on it while `typeof` still answers `object`. -/
inductive JSValue where
  | vUndefined
  | vNull
  | vBool (b : Bool)
  | vNum (n : Int)
  | vStr (s : String)
  | vArr (elems : List JSValue)
  | vObj (fields : List (String × JSValue))
  | vCyclic (tag : String)
deriving Repr

/-- JavaScript truthiness of a value (`undefined`, `null`, `false`, `0`
and the empty string are falsy; every object is truthy). -/
def jsTruthy : JSValue → Bool
  | .vUndefined => false
  | .vNull => false
  | .vBool b => b
  | .vNum n => !(n == 0)
  | .vStr s => !(s == "")
  | .vArr _ => true
  | .vObj _ => true
  | .vCyclic _ => true

/-- Field lookup on an object value (first binding wins, as a plain
JavaScript object has unique keys). -/
def jsField (v : JSValue) (k : String) : Option JSValue :=
  match v with
  | .vObj fs => fs.lookup k
  | _ => none

/-- Escaping of one character inside a JSON string literal. -/
def jsonEscapeChar (c : Char) : List Char :=
  if c = '"' then ['\\', '"']
  else if c = '\\' then ['\\', '\\']
  else if c = '\n' then ['\\', 'n']
  else if c = '\t' then ['\\', 't']
  else if c = '\r' then ['\\', 'r']
  else [c]

/-- A JSON string literal for `s`. -/
def jsonQuote (s : String) : String :=
  "\"" ++ String.mk (s.toList.flatMap jsonEscapeChar) ++ "\""

/-- Spaces used for pretty-printing indentation. -/
def nspaces (n : Nat) : String := String.mk (List.replicate n ' ')

/-- Layout of a brace- or bracket-delimited list of rendered members,
following `JSON.stringify` with a numeric gap (`0` means compact). -/
def wrapList (gap depth : Nat) (opener closer : String) (parts : List String) : String :=
  if parts.isEmpty then opener ++ closer
  else if gap = 0 then opener ++ String.intercalate "," parts ++ closer
  else
    opener ++ "\n" ++
      String.intercalate ",\n" (parts.map (fun p => nspaces (gap * (depth + 1)) ++ p)) ++
      "\n" ++ nspaces (gap * depth) ++ closer

mutual
/-- Model of `JSON.stringify(v, null, gap)`. The error case models the
`TypeError` thrown on a self-referential structure; `ok none` models an
`undefined` result (an `undefined` member is omitted from objects and
rendered `null` in arrays, as in JavaScript). -/
def strVal (gap depth : Nat) : JSValue → Except Unit (Option String)
  | .vUndefined => .ok none
  | .vCyclic _ => .error ()
  | .vNull => .ok (some "null")
  | .vBool b => .ok (some (if b then "true" else "false"))
  | .vNum n => .ok (some n.repr)
  | .vStr s => .ok (some (jsonQuote s))
  | .vArr es => do
      let parts ← strArr gap (depth + 1) es
      .ok (some (wrapList gap depth "[" "]" parts))
  | .vObj fs => do
      let parts ← strObj gap (depth + 1) fs
      .ok (some (wrapList gap depth "\x7b" "\x7d" parts))

/-- Rendering of array members: `undefined` members become `null`. -/
def strArr (gap depth : Nat) : List JSValue → Except Unit (List String)
  | [] => .ok []
  | v :: vs => do
      let r ← strVal gap depth v
      let rest ← strArr gap depth vs
      .ok ((r.getD "null") :: rest)

/-- Rendering of object members: `undefined`-valued keys are omitted. -/
def strObj (gap depth : Nat) : List (String × JSValue) → Except Unit (List String)
  | [] => .ok []
  | (k, v) :: fs => do
      let r ← strVal gap depth v
      let rest ← strObj gap depth fs
      match r with
      | none => .ok rest
      | some sv => .ok ((jsonQuote k ++ (if gap = 0 then ":" else ": ") ++ sv) :: rest)
end

/-- Model of `JSON.stringify(v, null, gap)` at the top level: `none` when
the call throws (cyclic input). -/
def jsonStringifyGap (gap : Nat) (v : JSValue) : Option String :=
  match strVal gap 0 v with
  | .ok (some s) => some s
  | _ => none

/-- Model of plain `JSON.stringify(v)` (compact). -/
def jsonStringify (v : JSValue) : Option String := jsonStringifyGap 0 v

/-- Model of `JSON.stringify(v, null, 2)` as used for all log documents. -/
def jsonStringifyPretty (v : JSValue) : Option String := jsonStringifyGap 2 v

/-- Decidable check whether `sub` occurs in `s`, modelling
`String.prototype.includes`. -/
def jsIncludes (s sub : String) : Bool := decide (sub.toList <:+: s.toList)

/-- Model of `String.prototype.trim` (whitespace stripped from both ends). -/
def jsTrim (s : String) : String :=
  String.mk ((s.toList.dropWhile Char.isWhitespace).reverse.dropWhile Char.isWhitespace).reverse

/-- Model of `String.prototype.toUpperCase` on the ASCII range (request
methods, the only strings it is applied to here, are ASCII). -/
def jsToUpperChar (c : Char) : Char :=
  if 97 ≤ c.toNat && c.toNat ≤ 122 then Char.ofNat (c.toNat - 32) else c

/-- Uppercasing of a string, characterwise. -/
def jsToUpper (s : String) : String := String.mk (s.toList.map jsToUpperChar)

/-- Truthiness-based string fallback: `a || b` on an optional string,
where both an absent value and the empty string fall through to `b`. -/
def jsOrStr (a : Option String) (b : String) : String :=
  match a with
  | some s => if s == "" then b else s
  | none => b

/-- Boolean check whether `pat` is a literal prefix of `l` (pattern
first), used to model regex anchors and `String.prototype.replace`. -/
def startsWithL (pat : List Char) : List Char → Bool
  | [] => pat.isEmpty
  | c :: cs =>
    match pat with
    | [] => true
    | p :: ps => p == c && startsWithL ps cs

/-- Replacement of the first occurrence of `pat` (as raw text) by `rep`,
modelling `String.prototype.replace` with a string pattern. -/
def replaceFirstL (pat rep : List Char) : List Char → List Char
  | [] => if pat.isEmpty then rep else []
  | c :: cs =>
    if startsWithL pat (c :: cs) then rep ++ (c :: cs).drop pat.length
    else c :: replaceFirstL pat rep cs

/-- String-level first-occurrence replacement. -/
def replaceFirst (s pat rep : String) : String :=
  String.mk (replaceFirstL pat.toList rep.toList s.toList)

/-! ## `src/utils.ts` -/

/-- Character class of the regex `[a-zA-Z0-9]` (so the complement of
`[^a-zA-Z0-9]` in `sanitize`). -/
def jsAlnum (c : Char) : Bool :=
  (97 ≤ c.toNat && c.toNat ≤ 122) || (65 ≤ c.toNat && c.toNat ≤ 90) ||
    (48 ≤ c.toNat && c.toNat ≤ 57)

/-- Model of `String.prototype.toLowerCase` on the ASCII range; in
`sanitize` it is applied after every non-ASCII character has already been
replaced by an underscore, so the ASCII table is the behaviour exercised. -/
def jsToLowerChar (c : Char) : Char :=
  if 65 ≤ c.toNat && c.toNat ≤ 90 then Char.ofNat (c.toNat + 32) else c

/-- The alphabet `[a-z0-9_]` of the sanitizer's contract (the regex
`^[a-z0-9_]*$` of the specification, characterwise). -/
def sanitizedChar (c : Char) : Bool :=
  (97 ≤ c.toNat && c.toNat ≤ 122) || (48 ≤ c.toNat && c.toNat ≤ 57) || c == '_'

/-- Replacement of every maximal run of `p`-characters by the single
character `rep`, the effect of `.replace(/<class>+/g, rep)`. The boolean
records whether the previous character belonged to a run. -/
def collapseRunsGo (p : Char → Bool) (rep : Char) : Bool → List Char → List Char
  | _, [] => []
  | inRun, c :: cs =>
    if p c then
      if inRun then collapseRunsGo p rep true cs
      else rep :: collapseRunsGo p rep true cs
    else c :: collapseRunsGo p rep false cs

/-- Run collapsing started outside a run. -/
def collapseRuns (p : Char → Bool) (rep : Char) (l : List Char) : List Char :=
  collapseRunsGo p rep false l

/-- Effect of `.replace(/^https?:\/\//, '')`: strip one leading scheme. -/
def stripScheme (l : List Char) : List Char :=
  if startsWithL "https://".toList l then l.drop 8
  else if startsWithL "http://".toList l then l.drop 7
  else l

/-- Effect of `.replace(/^_+|_+$/g, '')`: drop leading and trailing
underscore runs. -/
def dropUnderscoresEnds (l : List Char) : List Char :=
  ((l.dropWhile (fun c => c == '_')).reverse.dropWhile (fun c => c == '_')).reverse

/-- Character-list core of `sanitize`, chaining the five steps of the
source in order: strip scheme, collapse non-alphanumeric runs to `_`,
trim `_` at the ends, collapse `_` runs, lowercase. -/
def sanitizeL (l : List Char) : List Char :=
  List.map jsToLowerChar
    (collapseRuns (fun c => c == '_') '_'
      (dropUnderscoresEnds
        (collapseRuns (fun c => !jsAlnum c) '_' (stripScheme l))))

/-- Sanitize string for use in filename (`sanitize` in `src/utils.ts`). -/
def sanitize (s : String) : String := String.mk (sanitizeL s.toList)

/-- Pathname extracted by the WHATWG URL parser. -/
structure ParsedURL where
  pathname : String
deriving Repr, DecidableEq

/-- First character of a URL scheme. -/
def isSchemeStart (c : Char) : Bool :=
  (97 ≤ c.toNat && c.toNat ≤ 122) || (65 ≤ c.toNat && c.toNat ≤ 90)

/-- Subsequent character of a URL scheme. -/
def isSchemeChar (c : Char) : Bool :=
  jsAlnum c || c == '+' || c == '-' || c == '.'

/-- Modelled from the `new URL` builtin (WHATWG URL parser), restricted to
the shapes relevant here: `none` when the constructor throws (the input is
not an absolute URL), otherwise the parsed `pathname` with scheme, host,
query and fragment discarded. Scheme-specific normalisations beyond this
shape are not modelled. -/
def parseURL (s : String) : Option ParsedURL :=
  match s.toList with
  | [] => none
  | c :: _ =>
    if !isSchemeStart c then none
    else
      let cs := s.toList
      let schemePart := cs.takeWhile isSchemeChar
      let rest := cs.drop schemePart.length
      match rest with
      | ':' :: rest2 =>
        if startsWithL "//".toList rest2 then
          let afterSlashes := rest2.drop 2
          let host := afterSlashes.takeWhile (fun c => !(c == '/') && !(c == '?') && !(c == '#'))
          if host.isEmpty then none
          else
            let afterHost := afterSlashes.drop host.length
            let path := afterHost.takeWhile (fun c => !(c == '?') && !(c == '#'))
            some ⟨String.mk (if path.isEmpty then ['/'] else path)⟩
        else
          some ⟨String.mk (rest2.takeWhile (fun c => !(c == '?') && !(c == '#')))⟩
      | _ => none

/-- Effect of `url.split('?')[0]`: the portion before the first `?`. -/
def beforeQuery (url : String) : String :=
  String.mk (url.toList.takeWhile (fun c => !(c == '?')))

/-- Extract and sanitize path from URL (`getPathFromUrl` in
`src/utils.ts`): the sanitized pathname of an absolute URL, else the
sanitized portion of the raw string before the first `?`. -/
def getPathFromUrl (url : String) : String :=
  match parseURL url with
  | some u => sanitize u.pathname
  | none => sanitize (beforeQuery url)

/-- Log type (`LogKind` in `src/types.ts`). -/
inductive LogKind where
  | req
  | res
  | err
deriving Repr, DecidableEq

/-- File extension (`LogExt` in `src/types.ts`). -/
inductive LogExt where
  | json
  | html
  | txt
deriving Repr, DecidableEq

/-- Rendering of a log kind in a filename. -/
def kindStr : LogKind → String
  | .req => "req"
  | .res => "res"
  | .err => "err"

/-- Rendering of a log extension in a filename. -/
def extStr : LogExt → String
  | .json => "json"
  | .html => "html"
  | .txt => "txt"

/-- Header map of a response, as far as the logger reads it (string
valued, looked up by exact name). -/
abbrev Headers := List (String × String)

/-- Lookup of `headers?.['content-type']` through optional chaining. -/
def contentTypeOf (headers : Option Headers) : Option String :=
  headers.bind (fun h => h.lookup "content-type")

/-- Optional-chaining `includes` on a possibly absent content type. -/
def optIncludes (ct : Option String) (sub : String) : Bool :=
  match ct with
  | some s => jsIncludes s sub
  | none => false

/-- Model of `String.prototype.startsWith` (character-list based). -/
def jsStartsWith (s pre : String) : Bool := startsWithL pre.toList s.toList

/-- Detect extension from content (`detectExt` in `src/utils.ts`). -/
def detectExt (data : JSValue) (headers : Option Headers) : LogExt :=
  let contentType := contentTypeOf headers
  if optIncludes contentType "html" then .html
  else if optIncludes contentType "json" then .json
  else
    match data with
    | .vStr s =>
      let trimmed := jsTrim s
      if jsStartsWith trimmed "<!" || jsStartsWith trimmed "<html" then .html
      else if jsStartsWith trimmed "\x7b" || jsStartsWith trimmed "[" then .json
      else .txt
    | .vArr _ => .json
    | .vObj _ => .json
    | .vCyclic _ => .json
    | _ => .txt

/-- Two-digit rendering of a value below 100. -/
def padTwo (n : Nat) : String :=
  if n < 10 then "0" ++ Nat.repr n else Nat.repr n

/-- Model of `(num / den).toFixed(1)` where `num / den` is exact in
double precision (here `den` is a power of two and `num` an integer):
the value in tenths rounded half-up, per the `toFixed` specification. -/
def toFixedTenths (num den : Nat) : String :=
  let t := (num * 10 * 2 + den) / (2 * den)
  Nat.repr (t / 10) ++ "." ++ Nat.repr (t % 10)

/-- Model of `(num / den).toFixed(2)` under the same exactness. -/
def toFixedHundredths (num den : Nat) : String :=
  let h := (num * 100 * 2 + den) / (2 * den)
  Nat.repr (h / 100) ++ "." ++ padTwo (h % 100)

/-- Format bytes to human readable (`formatSize` in `src/utils.ts`). -/
def formatSize (bytes : Nat) : String :=
  if bytes < 1024 then Nat.repr bytes ++ "B"
  else if bytes < 1024 * 1024 then toFixedTenths bytes 1024 ++ "KB"
  else toFixedHundredths bytes (1024 * 1024) ++ "MB"

/-- Get data size in bytes (`getDataSize` in `src/utils.ts`): `0` for a
falsy value, the length for a string, else the length of the compact
JSON serialization, with a serialization failure caught as `0`. -/
def getDataSize (data : JSValue) : Nat :=
  if !jsTruthy data then 0
  else
    match data with
    | .vStr s => s.length
    | d =>
      match jsonStringify d with
      | some s => s.length
      | none => 0

/-- Parameters handed to a filename function (`FilenameParams` in
`src/types.ts`). -/
structure FilenameParams where
  ts : Nat
  hostname : String
  url : String
  path : String
  kind : LogKind
  ext : LogExt
deriving Repr

/-- The same record before the extension is chosen
(`Omit<FilenameParams, 'ext'>`). -/
structure FilenameParamsBase where
  ts : Nat
  hostname : String
  url : String
  path : String
  kind : LogKind
deriving Repr

/-- Completion of a parameter record with a chosen extension. -/
def withExt (b : FilenameParamsBase) (e : LogExt) : FilenameParams :=
  ⟨b.ts, b.hostname, b.url, b.path, b.kind, e⟩

/-- Default filename function (`defaultFilename` in `src/utils.ts`). -/
def defaultFilename (p : FilenameParams) : String :=
  Nat.repr p.ts ++ "_" ++ p.hostname ++ "_" ++ p.path ++ "_" ++
    kindStr p.kind ++ "." ++ extStr p.ext

/-- Build full filepath (`buildFilepath` in `src/utils.ts`). -/
def buildFilepath (dir : String) (filenameFn : FilenameParams → String)
    (params : FilenameParamsBase) (ext : LogExt) : String :=
  dir ++ "/" ++ filenameFn (withExt params ext)

/-! ## `src/saveLog.ts`

The filesystem is modelled as explicit state: the set of existing
directories, the file contents (most recent write first) and a
chronological log of the successful file writes, so that "exactly one
file is written" is expressible. Failure of the two `node:fs` primitives
is injected through explicit fault flags. -/

/-- Filesystem state threaded through the side-effecting operations. -/
structure World where
  dirs : List String
  files : List (String × String)
  events : List (String × String)
deriving Repr

/-- The empty filesystem. -/
def emptyWorld : World := ⟨[], [], []⟩

/-- Model of `path.dirname` (POSIX): strip trailing slashes, then the
component after the last slash; `.` when there is no slash, `/` when
only the root remains. -/
def dirname (p : String) : String :=
  let rev := p.toList.reverse.dropWhile (fun c => c == '/')
  let rest := rev.dropWhile (fun c => !(c == '/'))
  let rest2 := rest.dropWhile (fun c => c == '/')
  if rest2.isEmpty then (if rest.isEmpty then "." else "/")
  else String.mk rest2.reverse

/-- Chain of proper ancestors of a directory, by iterating `dirname`
until it reaches a fixed point (fuelled to make termination manifest). -/
def parentChain : Nat → String → List String
  | 0, _ => []
  | fuel + 1, d =>
    let p := dirname d
    if p == d then [] else p :: parentChain fuel p

/-- Model of `mkdir(dir, { recursive: true })`: the directory and all its
ancestors exist afterwards; an existing directory is not an error. -/
def mkdirRecursive (w : World) (d : String) : World :=
  { w with dirs := d :: parentChain d.length d ++ w.dirs }

/-- Model of `writeFile`: full overwrite of the path's content, recorded
in the chronological write log. -/
def writeFileFS (w : World) (p c : String) : World :=
  { w with files := (p, c) :: w.files, events := w.events ++ [(p, c)] }

/-- The `mkdir` promise: rejects when the injected fault flag is set. -/
def mkdirRecM (w : World) (d : String) (fault : Bool) : Except String World :=
  if fault then .error "EACCES" else .ok (mkdirRecursive w d)

/-- The `writeFile` promise: rejects when the injected fault flag is set. -/
def writeFileM (w : World) (p c : String) (fault : Bool) : Except String World :=
  if fault then .error "EIO" else .ok (writeFileFS w p c)

/-- Effect of `.catch(() => {})` on a promise: a rejection is swallowed
and the state is whatever it was when the rejection surfaced. -/
def catchSwallow (w : World) (r : Except String World) : World :=
  match r with
  | .ok w' => w'
  | .error _ => w

/-- Save log file with auto-created directories (`saveLog` in
`src/saveLog.ts`): create the parent directory recursively, then write,
each step's failure swallowed by `.catch(() => {})`. -/
def saveLog (w : World) (mkdirFault writeFault : Bool)
    (filepath content : String) : Except String World :=
  let w1 := catchSwallow w (mkdirRecM w (dirname filepath) mkdirFault)
  .ok (catchSwallow w1 (writeFileM w1 filepath content writeFault))

/-- Fault-free net effect of one `saveLog` call: parent directory
created, then the file written. -/
def afterWrite (w : World) (fp content : String) : World :=
  writeFileFS (mkdirRecursive w (dirname fp)) fp content

/-! ## `src/createAxiosLogger.ts`

The three interceptor hooks are modelled as pure state transformers.
`dir` and the filename function are the factory's bound configuration;
`host` is the factory's `getHostname()` value (an external input,
sanitized at bind time); `nowMs` is the value of `Date.now()` during the
hook invocation. The outcome distinguishes a resolved promise, the
deliberate `Promise.reject(err)`, and an exception thrown inside the
hook body (which reaches the caller as a rejection with that exception,
not with the original error). -/

/-- The request configuration fields the logger reads or writes
(`InternalAxiosRequestConfig` with the module augmentation). -/
structure Config where
  url : Option String := none
  method : Option String := none
  headers : JSValue := .vUndefined
  data : JSValue := .vUndefined
  logAs : Option String := none
  skipLog : Bool := false
  _logPath : Option String := none
  _logStartTime : Option Nat := none
deriving Repr

/-- A completed response bound to its originating configuration
(`AxiosResponse`). -/
structure AxiosResp where
  status : Nat
  statusText : String
  headers : Headers
  data : JSValue
  config : Config
deriving Repr

/-- A rejected exchange (`AxiosError`): the config and partial response
are optional, matching `err.config?` and `err.response?`. -/
structure AxiosErr where
  message : String
  code : Option String
  response : Option AxiosResp
  config : Option Config
deriving Repr

/-- Result of one hook invocation. `thrown` models an exception escaping
the async hook body (the caller observes a rejection carrying that
exception instead of the original error). -/
inductive HookOutcome (α : Type) where
  | fulfilled (a : α)
  | rejected (e : AxiosErr)
  | thrown (msg : String)
deriving Repr

/-- Exchange path derivation of the request hook (line 48 of the
factory): `config.logAs || config._logPath || getPathFromUrl(config.url
|| '')`, with JavaScript truthiness, so an empty string falls through. -/
def derivePath (cfg : Config) : String :=
  jsOrStr cfg.logAs (jsOrStr cfg._logPath (getPathFromUrl (cfg.url.getD "")))

/-- Embedding of an optional string as the JavaScript value it denotes. -/
def jsOfOptStr : Option String → JSValue
  | some s => .vStr s
  | none => .vUndefined

/-- Embedding of an optional number as the JavaScript value it denotes. -/
def jsOfOptNum : Option Int → JSValue
  | some n => .vNum n
  | none => .vUndefined

/-- Header map as the object value `JSON.stringify` serializes. -/
def headersToJS (h : Headers) : JSValue :=
  .vObj (h.map (fun kv => (kv.1, .vStr kv.2)))

/-- The request metadata document `reqData` of the request hook. -/
def reqDoc (cfg : Config) : JSValue :=
  .vObj [("url", jsOfOptStr cfg.url),
         ("method", jsOfOptStr (cfg.method.map jsToUpper)),
         ("headers", cfg.headers),
         ("data", cfg.data)]

/-- Duration computation shared by the response and error hooks:
`start ? Date.now() - start : undefined`, with `0` falsy. -/
def durationOf (start : Option Nat) (nowMs : Nat) : Option Int :=
  match start with
  | some t => if t == 0 then none else some ((nowMs : Int) - (t : Int))
  | none => none

/-- The response metadata document `resMeta` of the response hook. -/
def resMetaDoc (res : AxiosResp) (duration : Option Int) : JSValue :=
  .vObj [("status", .vNum (res.status : Int)),
         ("statusText", .vStr res.statusText),
         ("headers", headersToJS res.headers),
         ("duration", jsOfOptNum duration)]

/-- The error document `errData` of the error hook. -/
def errDoc (err : AxiosErr) (duration : Option Int) : JSValue :=
  .vObj [("message", .vStr err.message),
         ("code", jsOfOptStr err.code),
         ("status", match err.response with
                    | some r => .vNum (r.status : Int)
                    | none => .vUndefined),
         ("statusText", match err.response with
                        | some r => .vStr r.statusText
                        | none => .vUndefined),
         ("headers", match err.response with
                     | some r => headersToJS r.headers
                     | none => .vUndefined),
         ("duration", jsOfOptNum duration),
         ("data", match err.response with
                  | some r => r.data
                  | none => .vUndefined)]

/-- Message of the `TypeError` thrown by `JSON.stringify` on a cycle. -/
def circularMsg : String := "TypeError: Converting circular structure to JSON"

/-- Filename parameters assembled by the request hook. -/
def reqParams (host : String) (nowMs : Nat) (cfg : Config) : FilenameParamsBase :=
  ⟨nowMs / 1000, host, cfg.url.getD "", derivePath cfg, .req⟩

/-- Path of the request metadata file. -/
def reqFilepath (dir : String) (filenameFn : FilenameParams → String)
    (host : String) (nowMs : Nat) (cfg : Config) : String :=
  buildFilepath dir filenameFn (reqParams host nowMs cfg) .json

/-- Request interceptor of the factory (`request` in
`src/createAxiosLogger.ts`): skip short-circuit, path derivation and
stamping, request metadata write, return of the configuration. -/
def request (dir : String) (filenameFn : FilenameParams → String) (host : String)
    (nowMs : Nat) (cfg : Config) (w : World) (fault : Bool × Bool) :
    HookOutcome Config × World :=
  if cfg.skipLog then (.fulfilled cfg, w)
  else
    let cfg' := { cfg with _logPath := some (derivePath cfg), _logStartTime := some nowMs }
    let filepath := reqFilepath dir filenameFn host nowMs cfg
    match jsonStringifyPretty (reqDoc cfg) with
    | none => (.thrown circularMsg, w)
    | some content =>
      match saveLog w fault.1 fault.2 filepath content with
      | .error e => (.thrown e, w)
      | .ok w' => (.fulfilled cfg', w')

/-- Body content chosen by the response hook when the classified
extension is not `json`: the body as-is when it is a string, else its
pretty JSON serialization. -/
def rawBodyContent : JSValue → Option String
  | .vStr s => some s
  | d => jsonStringifyPretty d

/-- Exchange path recovered by the response hook:
`res.config._logPath || 'response'`. -/
def resPath (res : AxiosResp) : String := jsOrStr res.config._logPath "response"

/-- Duration computed by the response hook. -/
def resDuration (res : AxiosResp) (nowMs : Nat) : Option Int :=
  durationOf res.config._logStartTime nowMs

/-- Filename parameters assembled by the response hook. -/
def resParams (host : String) (nowMs : Nat) (res : AxiosResp) : FilenameParamsBase :=
  ⟨nowMs / 1000, host, res.config.url.getD "", resPath res, .res⟩

/-- Path of the response metadata file. -/
def resMetaFilepath (dir : String) (filenameFn : FilenameParams → String)
    (host : String) (nowMs : Nat) (res : AxiosResp) : String :=
  buildFilepath dir filenameFn (resParams host nowMs res) .json

/-- Response success interceptor of the factory (`response` in
`src/createAxiosLogger.ts`): skip short-circuit, metadata write, then a
raw-body write for a non-`json` extension or a `_res_data.json` sibling
write for a truthy `json` body, and return of the response. -/
def response (dir : String) (filenameFn : FilenameParams → String) (host : String)
    (nowMs : Nat) (res : AxiosResp) (w : World) (f1 f2 : Bool × Bool) :
    HookOutcome AxiosResp × World :=
  if res.config.skipLog then (.fulfilled res, w)
  else
    let metaFilepath := resMetaFilepath dir filenameFn host nowMs res
    let bodyExt := detectExt res.data (some res.headers)
    let bodyFilepath := buildFilepath dir filenameFn (resParams host nowMs res) bodyExt
    match jsonStringifyPretty (resMetaDoc res (resDuration res nowMs)) with
    | none => (.thrown circularMsg, w)
    | some metaContent =>
      match saveLog w f1.1 f1.2 metaFilepath metaContent with
      | .error e => (.thrown e, w)
      | .ok w1 =>
        if bodyExt ≠ .json then
          match rawBodyContent res.data with
          | none => (.thrown circularMsg, w1)
          | some bodyContent =>
            match saveLog w1 f2.1 f2.2 bodyFilepath bodyContent with
            | .error e => (.thrown e, w1)
            | .ok w2 => (.fulfilled res, w2)
        else if jsTruthy res.data then
          let dataFilepath := replaceFirst metaFilepath "_res.json" "_res_data.json"
          match jsonStringifyPretty res.data with
          | none => (.thrown circularMsg, w1)
          | some dataContent =>
            match saveLog w1 f2.1 f2.2 dataFilepath dataContent with
            | .error e => (.thrown e, w1)
            | .ok w2 => (.fulfilled res, w2)
        else (.fulfilled res, w1)

/-- The skip test of the error hook: `err.config?.skipLog`. -/
def errConfigSkip (err : AxiosErr) : Bool :=
  match err.config with
  | some c => c.skipLog
  | none => false

/-- Exchange path recovered by the error hook:
`err.config?._logPath || 'error'`. -/
def errPath (err : AxiosErr) : String :=
  jsOrStr (err.config.bind (fun c => c._logPath)) "error"

/-- Duration computed by the error hook. -/
def errDuration (err : AxiosErr) (nowMs : Nat) : Option Int :=
  durationOf (err.config.bind (fun c => c._logStartTime)) nowMs

/-- Filename parameters assembled by the error hook. -/
def errParams (host : String) (nowMs : Nat) (err : AxiosErr) : FilenameParamsBase :=
  ⟨nowMs / 1000, host, (err.config.bind (fun c => c.url)).getD "", errPath err, .err⟩

/-- Path of the error log file. -/
def errFilepath (dir : String) (filenameFn : FilenameParams → String)
    (host : String) (nowMs : Nat) (err : AxiosErr) : String :=
  buildFilepath dir filenameFn (errParams host nowMs err) .json

/-- Response error interceptor of the factory (`error` in
`src/createAxiosLogger.ts`): skip short-circuit, error document write,
re-rejection with the original error. The result type has no fulfilled
value, matching `Promise<never>`. -/
def error (dir : String) (filenameFn : FilenameParams → String) (host : String)
    (nowMs : Nat) (err : AxiosErr) (w : World) (fault : Bool × Bool) :
    HookOutcome Empty × World :=
  if errConfigSkip err then (.rejected err, w)
  else
    let filepath := errFilepath dir filenameFn host nowMs err
    match jsonStringifyPretty (errDoc err (errDuration err nowMs)) with
    | none => (.thrown circularMsg, w)
    | some content =>
      match saveLog w fault.1 fault.2 filepath content with
      | .error e => (.thrown e, w)
      | .ok w' => (.rejected err, w')

/-! ## Concrete exchanges used as witnesses and counterexamples -/

/-- A plain GET request configuration. -/
def sampleCfg : Config :=
  { url := some "https://api.example.com/v1/player"
    method := some "get" }

/-- The same configuration carrying a self-referential body. -/
def cyclicCfg : Config := { sampleCfg with data := .vCyclic "self" }

/-- The same configuration with logging suppressed. -/
def skipCfg : Config := { sampleCfg with skipLog := true }

/-- A configuration whose alias is the empty string. -/
def emptyAliasCfg : Config := { url := some "/api/users?page=2", logAs := some "" }

/-- A stamped configuration as the request hook leaves it. -/
def stampedCfg : Config :=
  { sampleCfg with _logPath := some "v1_player", _logStartTime := some 1738678234567 }

/-- A successful JSON response to the sample request. -/
def sampleResp : AxiosResp :=
  { status := 200
    statusText := "OK"
    headers := [("content-type", "application/json")]
    data := .vObj [("result", .vStr "ok")]
    config := stampedCfg }

/-- A response carrying a self-referential JSON body. -/
def cyclicResp : AxiosResp := { sampleResp with headers := [], data := .vCyclic "self" }

/-- A response with logging suppressed. -/
def skipResp : AxiosResp := { sampleResp with config := skipCfg }

/-- A rejected exchange with a partial 500 response. -/
def sampleErr : AxiosErr :=
  { message := "Request failed"
    code := some "ERR_BAD_RESPONSE"
    response := some { sampleResp with
                        status := 500
                        statusText := "Internal Server Error"
                        data := .vObj [("error", .vStr "boom")] }
    config := some stampedCfg }

/-- A rejected exchange whose partial response body is self-referential. -/
def cyclicErr : AxiosErr := { sampleErr with response := some cyclicResp }

/-- A rejected exchange with logging suppressed. -/
def skipErr : AxiosErr := { sampleErr with config := some skipCfg }

/-! ## Theorems -/

/-- C2: for every destination path and string content, `saveLog` ensures
the parent directory exists (created recursively), writes the content so
that it overwrites any existing file (the fresh content is what a lookup
of the path finds), and never rejects: under any combination of injected
`mkdir`/`writeFile` faults the returned promise resolves, and in the
fault-free run exactly one write is appended. -/
theorem saveLog_best_effort (w : World) (mkdirFault writeFault : Bool)
    (fp content : String) :
    (∃ w', saveLog w mkdirFault writeFault fp content = .ok w') ∧
    saveLog w false false fp content =
      .ok (writeFileFS (mkdirRecursive w (dirname fp)) fp content) ∧
    dirname fp ∈ (writeFileFS (mkdirRecursive w (dirname fp)) fp content).dirs ∧
    (writeFileFS (mkdirRecursive w (dirname fp)) fp content).files.lookup fp =
      some content ∧
    (writeFileFS (mkdirRecursive w (dirname fp)) fp content).events =
      w.events ++ [(fp, content)] := by
  refine ⟨⟨_, rfl⟩, rfl, ?_, ?_, rfl⟩
  · simp [writeFileFS, mkdirRecursive]
  · simp [writeFileFS, List.lookup]

/-- C3: when the request configuration has `skipLog` set, all three
hooks short-circuit: the request hook returns the configuration as given
(bookkeeping fields untouched), the response hook returns the response,
the error hook rejects with the original error, and in each case the
filesystem state — in particular the write log — is returned unchanged,
whatever the fault injection. -/
theorem skipLog_short_circuits (dir : String) (fn : FilenameParams → String)
    (host : String) (nowMs : Nat) (cfg : Config) (res : AxiosResp) (err : AxiosErr)
    (w : World) (f f1 f2 g : Bool × Bool)
    (hc : cfg.skipLog = true) (hr : res.config.skipLog = true)
    (he : errConfigSkip err = true) :
    request dir fn host nowMs cfg w f = (.fulfilled cfg, w) ∧
    response dir fn host nowMs res w f1 f2 = (.fulfilled res, w) ∧
    error dir fn host nowMs err w g = (.rejected err, w) := by
  refine ⟨?_, ?_, ?_⟩ <;> simp [request, response, error, hc, hr, he]

/-- Witness for C3 at a concrete suppressed exchange. -/
theorem skipLog_short_circuits_witness :
    request "/logs" defaultFilename "macbook" 1000 skipCfg emptyWorld (false, false) =
      (.fulfilled skipCfg, emptyWorld) ∧
    response "/logs" defaultFilename "macbook" 1000 skipResp emptyWorld (false, false)
        (false, false) = (.fulfilled skipResp, emptyWorld) ∧
    error "/logs" defaultFilename "macbook" 1000 skipErr emptyWorld (false, false) =
      (.rejected skipErr, emptyWorld) :=
  skipLog_short_circuits "/logs" defaultFilename "macbook" 1000 skipCfg skipResp
    skipErr emptyWorld (false, false) (false, false) (false, false) (false, false)
    rfl rfl rfl

/-- C10: an empty-string `logAs` is falsy, so the request hook ignores it
entirely: the derived exchange path is the `_logPath`/URL fallback, and
whenever the hook completes, the stamped `_logPath` is that fallback —
an empty alias can never become the exchange's path identifier. -/
theorem emptyLogAs_never_path (cfg : Config) (h : cfg.logAs = some "")
    (hskip : cfg.skipLog = false) :
    derivePath cfg = jsOrStr cfg._logPath (getPathFromUrl (cfg.url.getD "")) ∧
    ∀ dir fn host nowMs w f cfg' w',
      request dir fn host nowMs cfg w f = (.fulfilled cfg', w') →
      cfg'._logPath = some (jsOrStr cfg._logPath (getPathFromUrl (cfg.url.getD ""))) := by
  have hd : derivePath cfg = jsOrStr cfg._logPath (getPathFromUrl (cfg.url.getD "")) := by
    simp [derivePath, h, jsOrStr]
  refine ⟨hd, ?_⟩
  intro dir fn host nowMs w f cfg' w' hreq
  unfold request at hreq
  rw [hskip] at hreq
  split at hreq
  · next hfalse => simp at hfalse
  · split at hreq
    · simp at hreq
    · dsimp only at hreq
      split at hreq
      · simp at hreq
      · simp only [Prod.mk.injEq, HookOutcome.fulfilled.injEq] at hreq
        rw [← hreq.1, hd]

/-- Witness for C10: the empty alias falls through to the sanitized URL
path. -/
theorem emptyLogAs_never_path_witness : derivePath emptyAliasCfg = "api_users" :=
  ((emptyLogAs_never_path emptyAliasCfg rfl rfl).1).trans (by decide)

/-- C8: `detectExt` is total over every body value and optional content
type with range in the three-element extension type, and follows the
precedence: a content type containing "html" wins, then one containing
"json", then string-body sniffing (trimmed prefix `<!` or `<html` gives
html, `{` or `[` gives json), then a non-null structured value gives
json, and everything else is text; in particular a JSON-looking string
body under an html content type classifies as html. -/
theorem detectExt_spec :
    (∀ d h, detectExt d h = .html ∨ detectExt d h = .json ∨ detectExt d h = .txt) ∧
    (∀ d h, optIncludes (contentTypeOf h) "html" = true → detectExt d h = .html) ∧
    (∀ d h, optIncludes (contentTypeOf h) "html" = false →
      optIncludes (contentTypeOf h) "json" = true → detectExt d h = .json) ∧
    (∀ s h, optIncludes (contentTypeOf h) "html" = false →
      optIncludes (contentTypeOf h) "json" = false →
      (jsStartsWith (jsTrim s) "<!" = true ∨ jsStartsWith (jsTrim s) "<html" = true) →
      detectExt (.vStr s) h = .html) ∧
    (∀ s h, optIncludes (contentTypeOf h) "html" = false →
      optIncludes (contentTypeOf h) "json" = false →
      jsStartsWith (jsTrim s) "<!" = false → jsStartsWith (jsTrim s) "<html" = false →
      (jsStartsWith (jsTrim s) "\x7b" = true ∨ jsStartsWith (jsTrim s) "[" = true) →
      detectExt (.vStr s) h = .json) ∧
    (∀ s h, optIncludes (contentTypeOf h) "html" = false →
      optIncludes (contentTypeOf h) "json" = false →
      jsStartsWith (jsTrim s) "<!" = false → jsStartsWith (jsTrim s) "<html" = false →
      jsStartsWith (jsTrim s) "\x7b" = false → jsStartsWith (jsTrim s) "[" = false →
      detectExt (.vStr s) h = .txt) ∧
    (∀ fs h, optIncludes (contentTypeOf h) "html" = false →
      optIncludes (contentTypeOf h) "json" = false → detectExt (.vObj fs) h = .json) ∧
    (∀ es h, optIncludes (contentTypeOf h) "html" = false →
      optIncludes (contentTypeOf h) "json" = false → detectExt (.vArr es) h = .json) ∧
    (∀ t h, optIncludes (contentTypeOf h) "html" = false →
      optIncludes (contentTypeOf h) "json" = false → detectExt (.vCyclic t) h = .json) ∧
    (∀ h, optIncludes (contentTypeOf h) "html" = false →
      optIncludes (contentTypeOf h) "json" = false →
      detectExt .vNull h = .txt ∧ detectExt .vUndefined h = .txt ∧
      (∀ n, detectExt (.vNum n) h = .txt) ∧ (∀ b, detectExt (.vBool b) h = .txt)) ∧
    detectExt (.vStr "\x7b\"a\":1\x7d") (some [("content-type", "text/html")]) = .html := by
  refine ⟨?_, ?_, ?_, ?_, ?_, ?_, ?_, ?_, ?_, ?_, by decide⟩
  · intro d h
    unfold detectExt
    by_cases h1 : optIncludes (contentTypeOf h) "html"
    · simp [h1]
    by_cases h2 : optIncludes (contentTypeOf h) "json"
    · simp [h1, h2]
    rcases d with _ | _ | b | n | s | es | fs | t <;> simp [h1, h2]
    by_cases h3 : jsStartsWith (jsTrim s) "<!"
    · simp [h3]
    by_cases h4 : jsStartsWith (jsTrim s) "<html"
    · simp [h3, h4]
    by_cases h5 : jsStartsWith (jsTrim s) "\x7b"
    · simp [h3, h4, h5]
    by_cases h6 : jsStartsWith (jsTrim s) "["
    · simp [h3, h4, h5, h6]
    simp [h3, h4, h5, h6]
  · intro d h h1
    simp [detectExt, h1]
  · intro d h h1 h2
    simp [detectExt, h1, h2]
  · intro s h h1 h2 h3
    rcases h3 with h3 | h3 <;> simp [detectExt, h1, h2, h3]
  · intro s h h1 h2 h3 h4 h5
    rcases h5 with h5 | h5 <;> simp [detectExt, h1, h2, h3, h4, h5]
  · intro s h h1 h2 h3 h4 h5 h6
    simp [detectExt, h1, h2, h3, h4, h5, h6]
  · intro fs h h1 h2
    simp [detectExt, h1, h2]
  · intro es h h1 h2
    simp [detectExt, h1, h2]
  · intro t h h1 h2
    simp [detectExt, h1, h2]
  · intro h h1 h2
    refine ⟨by simp [detectExt, h1, h2], by simp [detectExt, h1, h2],
      fun n => by simp [detectExt, h1, h2], fun b => by simp [detectExt, h1, h2]⟩

/-- Witness for C8: header-less JSON sniffing of an array-prefixed
string body. -/
theorem detectExt_spec_witness : detectExt (.vStr "  [1,2]") none = .json :=
  detectExt_spec.2.2.2.2.1 "  [1,2]" none (by decide) (by decide) (by decide)
    (by decide) (Or.inr (by decide))

/-- C9: the logged size of a body is 0 for falsy values, the string
length for strings, the length of the compact JSON serialization for
structured values, and 0 rather than an exception when serialization
fails (self-referential structure); and `formatSize` renders a byte
count below 1024 as the integer with suffix B, below 1 MiB as the value
divided by 1024 rounded half-up to one decimal with suffix KB, and
otherwise divided by 1024² rounded half-up to two decimals with suffix
MB. -/
theorem size_accounting_spec :
    (∀ d, jsTruthy d = false → getDataSize d = 0) ∧
    (∀ s, getDataSize (.vStr s) = s.length) ∧
    (∀ d sd, jsTruthy d = true → (∀ s, d ≠ .vStr s) →
      jsonStringify d = some sd → getDataSize d = sd.length) ∧
    (∀ d, jsTruthy d = true → (∀ s, d ≠ .vStr s) →
      jsonStringify d = none → getDataSize d = 0) ∧
    getDataSize (.vCyclic "self") = 0 ∧
    (∀ n, n < 1024 → formatSize n = Nat.repr n ++ "B") ∧
    (∀ n, 1024 ≤ n → n < 1048576 →
      formatSize n = Nat.repr ((10 * n + 512) / 1024 / 10) ++ "." ++
        Nat.repr ((10 * n + 512) / 1024 % 10) ++ "KB") ∧
    (∀ n, 1048576 ≤ n →
      formatSize n = Nat.repr ((100 * n + 524288) / 1048576 / 100) ++ "." ++
        padTwo ((100 * n + 524288) / 1048576 % 100) ++ "MB") ∧
    formatSize 0 = "0B" ∧ formatSize 1024 = "1.0KB" ∧ formatSize 1048576 = "1.00MB" := by
  have hten : ∀ n : Nat, n * 10 * 2 + 1024 = 2 * (10 * n + 512) := by intro n; ring
  have hhun : ∀ n : Nat, n * 100 * 2 + 1048576 = 2 * (100 * n + 524288) := by
    intro n; ring
  refine ⟨?_, ?_, ?_, ?_, by decide, ?_, ?_, ?_, by decide, by decide, by decide⟩
  · intro d hd
    simp [getDataSize, hd]
  · intro s
    by_cases hs : s == ""
    · have : s = "" := by simpa using hs
      subst this
      decide
    · simp [getDataSize, jsTruthy, hs]
  · intro d sd htruthy hnstr hser
    cases d <;> simp_all [getDataSize, jsTruthy]
  · intro d htruthy hnstr hser
    cases d <;> simp_all [getDataSize, jsTruthy]
  · intro n hn
    simp [formatSize, hn]
  · intro n h1 h2
    have hlt : ¬ n < 1024 := by omega
    have hlt2 : n < 1024 * 1024 := by omega
    simp only [formatSize, hlt, hlt2, if_true, if_false, toFixedTenths]
    rw [hten n, show (2 * 1024 : Nat) = 2 * 1024 from rfl,
      Nat.mul_div_mul_left _ _ (by norm_num)]
  · intro n h1
    have hlt : ¬ n < 1024 := by omega
    have hlt2 : ¬ n < 1024 * 1024 := by omega
    simp only [formatSize, hlt, hlt2, if_true, if_false, toFixedHundredths]
    rw [hhun n, show (2 * (1024 * 1024) : Nat) = 2 * 1048576 from rfl,
      Nat.mul_div_mul_left _ _ (by norm_num)]

/-- Witness for C9: a mid-range byte count rendered in rounded tenths of
a KiB. -/
theorem size_accounting_spec_witness :
    formatSize 1536 = Nat.repr ((10 * 1536 + 512) / 1024 / 10) ++ "." ++
      Nat.repr ((10 * 1536 + 512) / 1024 % 10) ++ "KB" :=
  size_accounting_spec.2.2.2.2.2.2.1 1536 (by decide) (by decide)

/-- C7: `getPathFromUrl` is total: on a string the URL parser accepts as
an absolute URL it returns the sanitized pathname (scheme, host and
query discarded); on any other string it returns the sanitized portion
before the first `?`; with the specification's three anchor values. -/
theorem getPathFromUrl_spec :
    (∀ url u, parseURL url = some u → getPathFromUrl url = sanitize u.pathname) ∧
    (∀ url, parseURL url = none → getPathFromUrl url = sanitize (beforeQuery url)) ∧
    getPathFromUrl "https://api.example.com/v1/player?id=1" = "v1_player" ∧
    getPathFromUrl "/api/users?page=2" = "api_users" ∧
    getPathFromUrl "" = "" := by
  refine ⟨?_, ?_, by decide, by decide, by decide⟩
  · intro url u hp
    simp [getPathFromUrl, hp]
  · intro url hp
    simp [getPathFromUrl, hp]

/-- Witness for C7: an absolute URL's path component is extracted and
sanitized. -/
theorem getPathFromUrl_spec_witness :
    getPathFromUrl "https://api.example.com/v1/player?id=1" =
      sanitize (ParsedURL.mk "/v1/player").pathname :=
  getPathFromUrl_spec.1 "https://api.example.com/v1/player?id=1" ⟨"/v1/player"⟩
    (by decide)

/-- C4 (amended): for every request configuration without `skipLog`
whose request-metadata document serializes (in particular whenever the
body and headers are not self-referential), the pre-request hook derives
the exchange path as the first truthy value among the `logAs` alias, a
previously stamped `_logPath` and the sanitized URL path; stamps the
configuration with that path and the millisecond start timestamp;
appends exactly one write, of the request metadata file (kind `req`,
extension `json`), whose document's `method` field is the uppercased
request method; and fulfills with the stamped configuration. (Without
the serializability proviso the claim fails: a self-referential body
makes the hook throw before writing, see the counterexample.) -/
theorem request_spec (dir : String) (fn : FilenameParams → String) (host : String)
    (nowMs : Nat) (cfg : Config) (w : World) (content : String)
    (hskip : cfg.skipLog = false)
    (hser : jsonStringifyPretty (reqDoc cfg) = some content) :
    request dir fn host nowMs cfg w (false, false) =
      (.fulfilled { cfg with _logPath := some (derivePath cfg),
                             _logStartTime := some nowMs },
        writeFileFS (mkdirRecursive w (dirname (reqFilepath dir fn host nowMs cfg)))
          (reqFilepath dir fn host nowMs cfg) content) ∧
    (request dir fn host nowMs cfg w (false, false)).2.events =
      w.events ++ [(reqFilepath dir fn host nowMs cfg, content)] ∧
    reqFilepath dir fn host nowMs cfg =
      buildFilepath dir fn (reqParams host nowMs cfg) .json ∧
    (reqParams host nowMs cfg).kind = .req ∧
    jsField (reqDoc cfg) "method" = some (jsOfOptStr (cfg.method.map jsToUpper)) ∧
    (∀ a, cfg.logAs = some a → a ≠ "" → derivePath cfg = a) ∧
    (∀ p, (cfg.logAs = none ∨ cfg.logAs = some "") → cfg._logPath = some p →
      p ≠ "" → derivePath cfg = p) ∧
    ((cfg.logAs = none ∨ cfg.logAs = some "") →
      (cfg._logPath = none ∨ cfg._logPath = some "") →
      derivePath cfg = getPathFromUrl (cfg.url.getD "")) := by
  have hmain : request dir fn host nowMs cfg w (false, false) =
      (.fulfilled { cfg with _logPath := some (derivePath cfg),
                             _logStartTime := some nowMs },
        writeFileFS (mkdirRecursive w (dirname (reqFilepath dir fn host nowMs cfg)))
          (reqFilepath dir fn host nowMs cfg) content) := by
    unfold request
    rw [hskip, hser]
    rfl
  refine ⟨hmain, ?_, rfl, rfl, ?_, ?_, ?_, ?_⟩
  · rw [hmain]
    simp [writeFileFS, mkdirRecursive]
  · simp [jsField, reqDoc, List.lookup]
  · intro a ha hne
    simp [derivePath, ha, jsOrStr, hne]
  · intro p ha hp hne
    rcases ha with ha | ha <;> simp [derivePath, ha, hp, jsOrStr, hne]
  · intro ha hp
    rcases ha with ha | ha <;> rcases hp with hp | hp <;>
      simp [derivePath, ha, hp, jsOrStr]

set_option maxRecDepth 100000 in
/-- Counterexample for C4 as stated: a skip-free configuration carrying
a self-referential body makes the request hook throw a serialization
`TypeError` instead of writing the metadata file and returning the
configuration — the outcome is `thrown` and the write log stays empty. -/
theorem request_spec_counterexample :
    request "/logs" defaultFilename "macbook" 1738678234567 cyclicCfg emptyWorld
        (false, false) = (.thrown circularMsg, emptyWorld) ∧
    (request "/logs" defaultFilename "macbook" 1738678234567 cyclicCfg emptyWorld
        (false, false)).2.events.length = 0 :=
  ⟨rfl, rfl⟩

set_option maxRecDepth 100000 in
/-- Witness for C4 at the sample GET request. -/
theorem request_spec_witness :
    (request "/logs" defaultFilename "macbook" 1738678234567 sampleCfg emptyWorld
        (false, false)).2.events =
      emptyWorld.events ++
        [(reqFilepath "/logs" defaultFilename "macbook" 1738678234567 sampleCfg,
          "\x7b\n  \"url\": \"https://api.example.com/v1/player\",\n  \"method\": \"GET\"\n\x7d")] :=
  (request_spec "/logs" defaultFilename "macbook" 1738678234567 sampleCfg emptyWorld
    "\x7b\n  \"url\": \"https://api.example.com/v1/player\",\n  \"method\": \"GET\"\n\x7d"
    rfl rfl).2.1

/-- Boolean prefix test agrees with the prefix relation. -/
theorem startsWithL_iff (pat l : List Char) : startsWithL pat l = true ↔ pat <+: l := by
  induction l generalizing pat with
  | nil =>
    cases pat <;> simp [startsWithL]
  | cons c cs ih =>
    cases pat with
    | nil => simp [startsWithL]
    | cons p ps =>
      simp only [startsWithL, Bool.and_eq_true, beq_iff_eq, ih]
      constructor
      · rintro ⟨rfl, t, ht⟩
        exact ⟨t, by rw [List.cons_append, ht]⟩
      · intro hp
        rcases hp with ⟨t, ht⟩
        injection ht with h1 h2
        exact ⟨h1, ⟨t, h2⟩⟩

/-- A pattern is a prefix of itself followed by anything. -/
theorem startsWithL_append_self (pat rest : List Char) :
    startsWithL pat (pat ++ rest) = true :=
  (startsWithL_iff pat (pat ++ rest)).mpr ⟨rest, rfl⟩

/-- First-occurrence replacement hits the designated occurrence when no
earlier position of the text matches the pattern. -/
theorem replaceFirst_boundary (pat rep rest : List Char) :
    ∀ pre, (∀ pre1 pre2, pre = pre1 ++ pre2 → pre2 ≠ [] →
      startsWithL pat (pre2 ++ (pat ++ rest)) = false) →
    replaceFirstL pat rep (pre ++ (pat ++ rest)) = pre ++ (rep ++ rest) := by
  intro pre
  induction pre with
  | nil =>
    intro _
    simp only [List.nil_append]
    rcases hpr : pat ++ rest with _ | ⟨c, cs⟩
    · rw [List.append_eq_nil] at hpr
      obtain ⟨hp, hr⟩ := hpr
      subst hp; subst hr
      simp [replaceFirstL]
    · have step : replaceFirstL pat rep (c :: cs) =
          if startsWithL pat (c :: cs) = true then rep ++ (c :: cs).drop pat.length
          else c :: replaceFirstL pat rep cs := rfl
      rw [step, ← hpr]
      simp [startsWithL_append_self, List.drop_left]
  | cons c pre' ih =>
    intro hno
    have hfirst : startsWithL pat ((c :: pre') ++ (pat ++ rest)) = false :=
      hno [] (c :: pre') rfl (by simp)
    have hstep : replaceFirstL pat rep ((c :: pre') ++ (pat ++ rest)) =
        c :: replaceFirstL pat rep (pre' ++ (pat ++ rest)) := by
      rw [List.cons_append, replaceFirstL]
      rw [List.cons_append] at hfirst
      simp [hfirst]
    rw [hstep, ih (fun pre1 pre2 h hne => hno (c :: pre1) pre2 (by rw [h, List.cons_append]) hne)]
    rfl

/-- The pattern `_res.json` cannot match starting inside a dot-free
text placed in front of it: its dot (position 4) would have to land on a
dot-free character or on one of the characters `_res`. -/
theorem no_resjson_match_inside (pre2 rest : List Char) (hne : pre2 ≠ [])
    (hdot : '.' ∉ pre2) :
    startsWithL "_res.json".toList (pre2 ++ ("_res.json".toList ++ rest)) = false := by
  by_contra hcon
  rw [Bool.not_eq_false, startsWithL_iff] at hcon
  obtain ⟨t, ht⟩ := hcon
  have hL : ("_res.json".toList ++ t)[4]? = some '.' := by
    rw [List.getElem?_append, if_pos (show (4:Nat) < ("_res.json".toList).length by decide)]
    decide
  have hR : (pre2 ++ ("_res.json".toList ++ rest))[4]? = some '.' := by
    rw [ht] at hL
    exact hL
  have hlen1 : 1 ≤ pre2.length := by
    cases pre2
    · exact absurd rfl hne
    · simp
  by_cases hlt : 4 < pre2.length
  · rw [List.getElem?_append, if_pos hlt] at hR
    exact hdot (List.getElem?_mem hR)
  · have hle : pre2.length ≤ 4 := by omega
    rw [List.getElem?_append_right hle] at hR
    rw [List.getElem?_append, if_pos (show 4 - pre2.length < ("_res.json".toList).length by
      simp only [show ("_res.json".toList).length = 9 from rfl]; omega)] at hR
    have hk : pre2.length = 1 ∨ pre2.length = 2 ∨ pre2.length = 3 ∨ pre2.length = 4 := by
      omega
    rcases hk with hk | hk | hk | hk <;> rw [hk] at hR <;> exact absurd hR (by decide)

/-- No digit character is a dot. -/
theorem digitChar_ne_dot (m : Nat) : Nat.digitChar m ≠ '.' := by
  by_cases hlt : m < 16
  · interval_cases m <;> decide
  · push_neg at hlt
    have h0 : m ≠ 0 := by omega
    have h1 : m ≠ 1 := by omega
    have h2 : m ≠ 2 := by omega
    have h3 : m ≠ 3 := by omega
    have h4 : m ≠ 4 := by omega
    have h5 : m ≠ 5 := by omega
    have h6 : m ≠ 6 := by omega
    have h7 : m ≠ 7 := by omega
    have h8 : m ≠ 8 := by omega
    have h9 : m ≠ 9 := by omega
    have h10 : m ≠ 10 := by omega
    have h11 : m ≠ 11 := by omega
    have h12 : m ≠ 12 := by omega
    have h13 : m ≠ 13 := by omega
    have h14 : m ≠ 14 := by omega
    have h15 : m ≠ 15 := by omega
    simp only [Nat.digitChar, h0, h1, h2, h3, h4, h5, h6, h7, h8, h9, h10, h11, h12,
      h13, h14, h15, if_false]
    decide

/-- The digit accumulator of `Nat` rendering never contains a dot. -/
theorem toDigitsCore_no_dot (fuel : Nat) : ∀ (n : Nat) (acc : List Char),
    '.' ∉ acc → '.' ∉ Nat.toDigitsCore 10 fuel n acc := by
  induction fuel with
  | zero =>
    intro n acc hacc
    simpa [Nat.toDigitsCore] using hacc
  | succ fuel ih =>
    intro n acc hacc
    rw [Nat.toDigitsCore]
    have hcons : '.' ∉ (n % 10).digitChar :: acc := by
      intro hmem
      rcases List.mem_cons.mp hmem with hmem | hmem
      · exact digitChar_ne_dot (n % 10) hmem.symm
      · exact hacc hmem
    split
    · exact hcons
    · exact ih (n / 10) ((n % 10).digitChar :: acc) hcons

/-- The decimal rendering of a natural number contains no dot. -/
theorem repr_no_dot (n : Nat) : '.' ∉ (Nat.repr n).toList := by
  have h : (Nat.repr n).toList = Nat.toDigitsCore 10 (n + 1) n [] := rfl
  rw [h]
  exact toDigitsCore_no_dot (n + 1) n [] (by simp)

/-- Substituting `_res.json` by `_res_data.json` behind a dot-free stem
is exactly suffix substitution. -/
theorem replaceFirst_resjson (base : String) (hdot : '.' ∉ base.toList) :
    replaceFirst (base ++ "_res.json") "_res.json" "_res_data.json" =
      base ++ "_res_data.json" := by
  unfold replaceFirst
  apply String.ext
  show replaceFirstL "_res.json".toList "_res_data.json".toList
      (base ++ "_res.json").toList = (base ++ "_res_data.json").data
  have h1 : (base ++ "_res.json").toList = base.toList ++ ("_res.json".toList ++ []) := by
    simp [String.toList, String.data_append]
  rw [h1, replaceFirst_boundary]
  · simp [String.toList, String.data_append]
  · intro pre1 pre2 hsplit hne
    apply no_resjson_match_inside pre2 [] hne
    intro hmem
    apply hdot
    rw [show base.toList = pre1 ++ pre2 from hsplit]
    exact List.mem_append.mpr (Or.inr hmem)

/-- Under the default naming function the response metadata path is a
dot-free-stem followed by the literal suffix `_res.json`. -/
theorem resMetaFilepath_default (dir host : String) (nowMs : Nat) (res : AxiosResp) :
    resMetaFilepath dir defaultFilename host nowMs res =
      (dir ++ "/" ++ Nat.repr (nowMs / 1000) ++ "_" ++ host ++ "_" ++ resPath res) ++
        "_res.json" := by
  apply String.ext
  simp only [resMetaFilepath, buildFilepath, defaultFilename, withExt, resParams,
    kindStr, extStr, String.data_append, List.append_assoc]
  simp [show ("_res.json".data : List Char) = '_' :: 'r' :: 'e' :: 's' :: '.' :: 'j' :: 's' :: 'o' :: 'n' :: [] from rfl,
    show ("_".data : List Char) = ['_'] from rfl,
    show ("res".data : List Char) = ['r', 'e', 's'] from rfl,
    show (".".data : List Char) = ['.'] from rfl,
    show ("json".data : List Char) = ['j', 's', 'o', 'n'] from rfl]

/-- C5 (amended): for every response without `skipLog` whose metadata
document serializes, after the metadata write: when the classified
extension is not `json` and the raw body resolves (a string as-is, else
its serialization), exactly the metadata file and the raw body file
(with the classified extension) are written and the hook fulfills with
the response unchanged; when the extension is `json` and the body is
truthy and serializes, the body is written to the path obtained by
first-occurrence substitution of `_res.json` with `_res_data.json` in
the metadata path — which, under the default naming function and
dot-free directory, host and exchange path, is exactly the sibling path
with the `_res.json` suffix replaced; when the extension is `json` and
the body is falsy, only the metadata file is written. (Without the
serializability proviso the claim fails: a self-referential body throws
after the metadata write and the response is not returned, see the
counterexample.) -/
theorem response_spec (dir : String) (fn : FilenameParams → String) (host : String)
    (nowMs : Nat) (res : AxiosResp) (w : World) (mc : String)
    (hskip : res.config.skipLog = false)
    (hmc : jsonStringifyPretty (resMetaDoc res (resDuration res nowMs)) = some mc) :
    (∀ bc, detectExt res.data (some res.headers) ≠ .json →
      rawBodyContent res.data = some bc →
      ∃ w', response dir fn host nowMs res w (false, false) (false, false) =
          (.fulfilled res, w') ∧
        w'.events = w.events ++
          [(resMetaFilepath dir fn host nowMs res, mc),
           (buildFilepath dir fn (resParams host nowMs res)
             (detectExt res.data (some res.headers)), bc)]) ∧
    (∀ dc, detectExt res.data (some res.headers) = .json → jsTruthy res.data = true →
      jsonStringifyPretty res.data = some dc →
      ∃ w', response dir fn host nowMs res w (false, false) (false, false) =
          (.fulfilled res, w') ∧
        w'.events = w.events ++
          [(resMetaFilepath dir fn host nowMs res, mc),
           (replaceFirst (resMetaFilepath dir fn host nowMs res) "_res.json"
             "_res_data.json", dc)]) ∧
    (detectExt res.data (some res.headers) = .json → jsTruthy res.data = false →
      ∃ w', response dir fn host nowMs res w (false, false) (false, false) =
          (.fulfilled res, w') ∧
        w'.events = w.events ++ [(resMetaFilepath dir fn host nowMs res, mc)]) ∧
    ('.' ∉ dir.toList → '.' ∉ host.toList → '.' ∉ (resPath res).toList →
      replaceFirst (resMetaFilepath dir defaultFilename host nowMs res) "_res.json"
          "_res_data.json" =
        dir ++ "/" ++ Nat.repr (nowMs / 1000) ++ "_" ++ host ++ "_" ++ resPath res ++
          "_res_data.json") := by
  refine ⟨?_, ?_, ?_, ?_⟩
  · intro bc hne hbc
    refine ⟨afterWrite (afterWrite w (resMetaFilepath dir fn host nowMs res) mc)
      (buildFilepath dir fn (resParams host nowMs res)
        (detectExt res.data (some res.headers))) bc, ?_, ?_⟩
    · unfold response
      rw [hskip, hmc]
      simp [saveLog, mkdirRecM, writeFileM, catchSwallow, afterWrite, hne, hbc]
    · simp [afterWrite, writeFileFS, mkdirRecursive]
  · intro dc heq htr hdc
    refine ⟨afterWrite (afterWrite w (resMetaFilepath dir fn host nowMs res) mc)
      (replaceFirst (resMetaFilepath dir fn host nowMs res) "_res.json"
        "_res_data.json") dc, ?_, ?_⟩
    · unfold response
      rw [hskip, hmc]
      simp [saveLog, mkdirRecM, writeFileM, catchSwallow, afterWrite, heq, htr, hdc]
    · simp [afterWrite, writeFileFS, mkdirRecursive]
  · intro heq hfa
    refine ⟨afterWrite w (resMetaFilepath dir fn host nowMs res) mc, ?_, ?_⟩
    · unfold response
      rw [hskip, hmc]
      simp [saveLog, mkdirRecM, writeFileM, catchSwallow, afterWrite, heq, hfa]
    · simp [afterWrite, writeFileFS, mkdirRecursive]
  · intro hdir hhost hpath
    have hdot : '.' ∉ (dir ++ "/" ++ Nat.repr (nowMs / 1000) ++ "_" ++ host ++ "_" ++
        resPath res).toList := by
      have hdir' : '.' ∉ dir.data := hdir
      have hhost' : '.' ∉ host.data := hhost
      have hpath' : '.' ∉ (resPath res).data := hpath
      have hrepr : '.' ∉ (Nat.repr (nowMs / 1000)).data := repr_no_dot (nowMs / 1000)
      simp only [String.toList, String.data_append, List.mem_append]
      simp [hdir', hhost', hpath', hrepr]
    rw [resMetaFilepath_default, replaceFirst_resjson _ hdot]

set_option maxRecDepth 1000000 in
/-- Counterexample for C5 as stated: a response whose body is
self-referential (classified `json`, truthy) makes the hook throw the
serialization `TypeError` after the metadata write — only one file is
written and the response is not returned. -/
theorem response_spec_counterexample :
    (response "/logs" defaultFilename "macbook" 1738678234800 cyclicResp emptyWorld
        (false, false) (false, false)).1 = .thrown circularMsg ∧
    (response "/logs" defaultFilename "macbook" 1738678234800 cyclicResp emptyWorld
        (false, false) (false, false)).2.events.length = 1 :=
  ⟨rfl, rfl⟩

set_option maxRecDepth 1000000 in
/-- Witness for C5 at the sample JSON response. -/
theorem response_spec_witness :
    (response "/logs" defaultFilename "macbook" 1738678234800 sampleResp emptyWorld
        (false, false) (false, false)).2.events =
      emptyWorld.events ++
        [(resMetaFilepath "/logs" defaultFilename "macbook" 1738678234800 sampleResp,
          "\x7b\n  \"status\": 200,\n  \"statusText\": \"OK\",\n  \"headers\": \x7b\n    \"content-type\": \"application/json\"\n  \x7d,\n  \"duration\": 233\n\x7d"),
         (replaceFirst (resMetaFilepath "/logs" defaultFilename "macbook" 1738678234800
            sampleResp) "_res.json" "_res_data.json",
          "\x7b\n  \"result\": \"ok\"\n\x7d")] := by
  obtain ⟨w', hw, hev⟩ :=
    (response_spec "/logs" defaultFilename "macbook" 1738678234800 sampleResp emptyWorld
      "\x7b\n  \"status\": 200,\n  \"statusText\": \"OK\",\n  \"headers\": \x7b\n    \"content-type\": \"application/json\"\n  \x7d,\n  \"duration\": 233\n\x7d"
      rfl rfl).2.1 "\x7b\n  \"result\": \"ok\"\n\x7d" rfl rfl rfl
  rw [hw]
  exact hev

/-- C1 (amended): for every axios error without `skipLog` whose error
document serializes (in particular whenever the partial response payload
is not self-referential), the on-error hook re-rejects with exactly the
original error value under any fault injection — its promise type has no
value to resolve with, and the failure is neither suppressed nor
transformed — and in the fault-free run it appends exactly one write, of
the error file (kind `err`, extension `json`), whose document carries
the error's `message`, `code` and response `status` fields. (Without the
serializability proviso the claim fails: a self-referential response
body makes the hook reject with the serialization `TypeError` instead,
see the counterexample.) -/
theorem error_spec (dir : String) (fn : FilenameParams → String) (host : String)
    (nowMs : Nat) (err : AxiosErr) (w : World) (content : String)
    (hskip : errConfigSkip err = false)
    (hser : jsonStringifyPretty (errDoc err (errDuration err nowMs)) = some content) :
    (∀ f, (error dir fn host nowMs err w f).1 = .rejected err) ∧
    error dir fn host nowMs err w (false, false) =
      (.rejected err,
        writeFileFS (mkdirRecursive w (dirname (errFilepath dir fn host nowMs err)))
          (errFilepath dir fn host nowMs err) content) ∧
    (error dir fn host nowMs err w (false, false)).2.events =
      w.events ++ [(errFilepath dir fn host nowMs err, content)] ∧
    errFilepath dir fn host nowMs err =
      buildFilepath dir fn (errParams host nowMs err) .json ∧
    (errParams host nowMs err).kind = .err ∧
    jsField (errDoc err (errDuration err nowMs)) "message" =
      some (.vStr err.message) ∧
    jsField (errDoc err (errDuration err nowMs)) "code" =
      some (jsOfOptStr err.code) ∧
    jsField (errDoc err (errDuration err nowMs)) "status" =
      some (match err.response with
            | some r => .vNum (r.status : Int)
            | none => .vUndefined) := by
  have hmain : error dir fn host nowMs err w (false, false) =
      (.rejected err,
        writeFileFS (mkdirRecursive w (dirname (errFilepath dir fn host nowMs err)))
          (errFilepath dir fn host nowMs err) content) := by
    unfold error
    rw [hskip, hser]
    rfl
  refine ⟨?_, hmain, ?_, rfl, rfl, ?_, ?_, ?_⟩
  · intro f
    unfold error
    rw [hskip, hser]
    rfl
  · rw [hmain]
    simp [writeFileFS, mkdirRecursive]
  · simp [jsField, errDoc, List.lookup]
  · simp [jsField, errDoc, List.lookup]
  · simp [jsField, errDoc, List.lookup]

set_option maxRecDepth 100000 in
/-- Counterexample for C1 as stated: an error whose partial response
body is self-referential makes the on-error hook reject with the
serialization `TypeError` rather than the original error value, and no
error file is written. -/
theorem error_spec_counterexample :
    error "/logs" defaultFilename "macbook" 1738678234800 cyclicErr emptyWorld
        (false, false) = (.thrown circularMsg, emptyWorld) ∧
    (error "/logs" defaultFilename "macbook" 1738678234800 cyclicErr emptyWorld
        (false, false)).2.events.length = 0 :=
  ⟨rfl, rfl⟩

set_option maxRecDepth 100000 in
/-- Witness for C1 at the sample 500 error. -/
theorem error_spec_witness :
    (error "/logs" defaultFilename "macbook" 1738678234800 sampleErr emptyWorld
        (false, false)).2.events =
      emptyWorld.events ++
        [(errFilepath "/logs" defaultFilename "macbook" 1738678234800 sampleErr,
          "\x7b\n  \"message\": \"Request failed\",\n  \"code\": \"ERR_BAD_RESPONSE\",\n  \"status\": 500,\n  \"statusText\": \"Internal Server Error\",\n  \"headers\": \x7b\n    \"content-type\": \"application/json\"\n  \x7d,\n  \"duration\": 233,\n  \"data\": \x7b\n    \"error\": \"boom\"\n  \x7d\n\x7d")] :=
  (error_spec "/logs" defaultFilename "macbook" 1738678234800 sampleErr emptyWorld
    "\x7b\n  \"message\": \"Request failed\",\n  \"code\": \"ERR_BAD_RESPONSE\",\n  \"status\": 500,\n  \"statusText\": \"Internal Server Error\",\n  \"headers\": \x7b\n    \"content-type\": \"application/json\"\n  \x7d,\n  \"duration\": 233,\n  \"data\": \x7b\n    \"error\": \"boom\"\n  \x7d\n\x7d"
    rfl rfl).2.2.1


theorem toNat_ofNat_small (m : Nat) (h : m ≤ 122) : (Char.ofNat m).toNat = m := by
  have hv : m.isValidChar := Or.inl (by omega)
  simp [Char.ofNat, hv, Char.ofNatAux, Char.toNat, UInt32.toNat]

theorem eq_underscore_iff (c : Char) : c = '_' ↔ c.toNat = 95 := by
  constructor
  · intro h
    subst h
    decide
  · intro h
    apply Char.ext
    apply UInt32.ext
    simpa [Char.toNat, UInt32.toNat] using h

theorem toLower_toNat (c : Char) :
    (jsToLowerChar c).toNat =
      if 65 ≤ c.toNat ∧ c.toNat ≤ 90 then c.toNat + 32 else c.toNat := by
  unfold jsToLowerChar
  by_cases h : 65 ≤ c.toNat ∧ c.toNat ≤ 90
  · rw [if_pos h, if_pos (by simp [h.1, h.2]), toNat_ofNat_small _ (by omega)]
  · rw [if_neg h, if_neg]
    simp only [Bool.and_eq_true, decide_eq_true_eq]
    omega

theorem sanitizedChar_iff (c : Char) :
    sanitizedChar c = true ↔
      (97 ≤ c.toNat ∧ c.toNat ≤ 122) ∨ (48 ≤ c.toNat ∧ c.toNat ≤ 57) ∨ c.toNat = 95 := by
  simp only [sanitizedChar, Bool.or_eq_true, Bool.and_eq_true, decide_eq_true_eq,
    beq_iff_eq, eq_underscore_iff]
  tauto

theorem jsAlnum_iff (c : Char) :
    jsAlnum c = true ↔
      (97 ≤ c.toNat ∧ c.toNat ≤ 122) ∨ (65 ≤ c.toNat ∧ c.toNat ≤ 90) ∨
        (48 ≤ c.toNat ∧ c.toNat ≤ 57) := by
  simp only [jsAlnum, Bool.or_eq_true, Bool.and_eq_true, decide_eq_true_eq]
  tauto

theorem sanitizedChar_toLower (c : Char) (h : jsAlnum c = true ∨ c = '_') :
    sanitizedChar (jsToLowerChar c) = true := by
  rw [sanitizedChar_iff, toLower_toNat]
  rcases h with h | h
  · rw [jsAlnum_iff] at h
    split <;> omega
  · rw [eq_underscore_iff] at h
    split <;> omega

theorem toLower_underscore_iff (c : Char) : jsToLowerChar c = '_' ↔ c = '_' := by
  rw [eq_underscore_iff, eq_underscore_iff, toLower_toNat]
  split <;> omega

theorem toLower_fix (c : Char) (h : sanitizedChar c = true) : jsToLowerChar c = c := by
  rw [sanitizedChar_iff] at h
  unfold jsToLowerChar
  rw [if_neg]
  simp only [Bool.and_eq_true, decide_eq_true_eq]
  omega



theorem collapseGo_nil (p : Char → Bool) (rep : Char) (b : Bool) :
    collapseRunsGo p rep b [] = [] := rfl

theorem collapseGo_cons_pos_true (p : Char → Bool) (rep a : Char) (t : List Char)
    (h : p a = true) :
    collapseRunsGo p rep true (a :: t) = collapseRunsGo p rep true t := by
  simp [collapseRunsGo, h]

theorem collapseGo_cons_pos_false (p : Char → Bool) (rep a : Char) (t : List Char)
    (h : p a = true) :
    collapseRunsGo p rep false (a :: t) = rep :: collapseRunsGo p rep true t := by
  simp [collapseRunsGo, h]

theorem collapseGo_cons_neg (p : Char → Bool) (rep a : Char) (t : List Char) (b : Bool)
    (h : p a = false) :
    collapseRunsGo p rep b (a :: t) = a :: collapseRunsGo p rep false t := by
  cases b <;> simp [collapseRunsGo, h]

theorem collapseGo_mem (p : Char → Bool) (rep : Char) :
    ∀ (b : Bool) (l : List Char) (c : Char), c ∈ collapseRunsGo p rep b l →
      c = rep ∨ (c ∈ l ∧ p c = false) := by
  intro b l
  induction l generalizing b with
  | nil =>
    intro c hc
    rw [collapseGo_nil] at hc
    simp at hc
  | cons a t ih =>
    intro c hc
    by_cases hp : p a
    · cases b with
      | true =>
        rw [collapseGo_cons_pos_true p rep a t hp] at hc
        rcases ih true c hc with h | ⟨hm, hpc⟩
        · exact Or.inl h
        · exact Or.inr ⟨List.mem_cons_of_mem a hm, hpc⟩
      | false =>
        rw [collapseGo_cons_pos_false p rep a t hp] at hc
        rcases List.mem_cons.mp hc with h | hc'
        · exact Or.inl h
        · rcases ih true c hc' with h | ⟨hm, hpc⟩
          · exact Or.inl h
          · exact Or.inr ⟨List.mem_cons_of_mem a hm, hpc⟩
    · rw [collapseGo_cons_neg p rep a t b (by simpa using hp)] at hc
      rcases List.mem_cons.mp hc with h | hc'
      · rw [h]
        exact Or.inr ⟨List.mem_cons_self a t, by simpa using hp⟩
      · rcases ih false c hc' with h | ⟨hm, hpc⟩
        · exact Or.inl h
        · exact Or.inr ⟨List.mem_cons_of_mem a hm, hpc⟩

theorem collapseGo_head_true (p : Char → Bool) (rep : Char) :
    ∀ (l : List Char) (c : Char), (collapseRunsGo p rep true l).head? = some c →
      p c = false := by
  intro l
  induction l with
  | nil =>
    intro c hc
    rw [collapseGo_nil] at hc
    simp at hc
  | cons a t ih =>
    intro c hc
    by_cases hp : p a
    · rw [collapseGo_cons_pos_true p rep a t hp] at hc
      exact ih c hc
    · rw [collapseGo_cons_neg p rep a t true (by simpa using hp)] at hc
      simp only [List.head?_cons, Option.some.injEq] at hc
      subst hc
      simpa using hp

theorem collapseGo_chain (p : Char → Bool) (rep : Char) (hrep : p rep = true) :
    ∀ (b : Bool) (l : List Char),
      List.Chain' (fun a b' => ¬(a = rep ∧ b' = rep)) (collapseRunsGo p rep b l) := by
  intro b l
  induction l generalizing b with
  | nil =>
    rw [collapseGo_nil]
    simp
  | cons a t ih =>
    by_cases hp : p a
    · cases b with
      | true =>
        rw [collapseGo_cons_pos_true p rep a t hp]
        exact ih true
      | false =>
        rw [collapseGo_cons_pos_false p rep a t hp, List.chain'_cons']
        refine ⟨?_, ih true⟩
        intro y hy hcontra
        have hpy := collapseGo_head_true p rep t y hy
        rw [hcontra.2] at hpy
        rw [hpy] at hrep
        exact Bool.false_ne_true hrep
    · rw [collapseGo_cons_neg p rep a t b (by simpa using hp), List.chain'_cons']
      refine ⟨?_, ih false⟩
      intro y hy hcontra
      rw [hcontra.1] at hp
      rw [hrep] at hp
      exact hp rfl

theorem collapseGo_getLast (p : Char → Bool) (rep : Char) :
    ∀ (l : List Char) (b : Bool) (c : Char), l.getLast? = some c → p c = false →
      (collapseRunsGo p rep b l).getLast? = some c := by
  intro l
  induction l with
  | nil =>
    intro b c hc
    simp at hc
  | cons a t ih =>
    intro b c hc hpc
    cases t with
    | nil =>
      have ha : a = c := by simpa using hc
      rw [ha, collapseGo_cons_neg p rep c [] b hpc]
      rfl
    | cons x xs =>
      rw [List.getLast?_cons_cons] at hc
      by_cases hp : p a
      · cases b with
        | true =>
          rw [collapseGo_cons_pos_true p rep a (x :: xs) hp]
          exact ih true c hc hpc
        | false =>
          rw [collapseGo_cons_pos_false p rep a (x :: xs) hp]
          have hrec := ih true c hc hpc
          cases hx : collapseRunsGo p rep true (x :: xs) with
          | nil =>
            rw [hx] at hrec
            simp at hrec
          | cons z zs =>
            rw [hx] at hrec
            rw [List.getLast?_cons_cons]
            exact hrec
      · rw [collapseGo_cons_neg p rep a (x :: xs) b (by simpa using hp)]
        have hrec := ih false c hc hpc
        cases hx : collapseRunsGo p rep false (x :: xs) with
        | nil =>
          rw [hx] at hrec
          simp at hrec
        | cons z zs =>
          rw [hx] at hrec
          rw [List.getLast?_cons_cons]
          exact hrec

theorem collapseGo_head_neg (p : Char → Bool) (rep : Char) (l : List Char)
    (h : ∀ c, l.head? = some c → p c = false) :
    (collapseRunsGo p rep false l).head? = l.head? := by
  cases l with
  | nil => rfl
  | cons a t =>
    rw [collapseGo_cons_neg p rep a t false (h a rfl)]
    rfl

theorem collapseGo_eq_self (p : Char → Bool) (rep : Char) :
    ∀ (l : List Char) (b : Bool),
      (∀ c ∈ l, p c = true → c = rep) →
      List.Chain' (fun a b' => ¬(a = rep ∧ b' = rep)) l →
      (b = true → l.head? ≠ some rep) →
      collapseRunsGo p rep b l = l := by
  intro l
  induction l with
  | nil =>
    intro b _ _ _
    rfl
  | cons a t ih =>
    intro b hrep hchain hb
    rcases List.chain'_cons'.mp hchain with ⟨hhead, htail⟩
    by_cases hp : p a
    · have ha : a = rep := hrep a (List.mem_cons_self a t) hp
      cases b with
      | true =>
        exact absurd (by rw [ha]; rfl) (hb rfl)
      | false =>
        rw [collapseGo_cons_pos_false p rep a t hp, ha]
        congr 1
        apply ih true (fun c hc hpc => hrep c (List.mem_cons_of_mem a hc) hpc) htail
        intro _ hcontra
        cases t with
        | nil => simp at hcontra
        | cons x xs =>
          simp only [List.head?_cons, Option.some.injEq] at hcontra
          exact hhead x rfl ⟨ha, hcontra⟩
    · rw [collapseGo_cons_neg p rep a t b (by simpa using hp)]
      congr 1
      exact ih false (fun c hc hpc => hrep c (List.mem_cons_of_mem a hc) hpc) htail
        (fun hfalse => absurd hfalse (by simp))



theorem dropWhile_head_not (p : Char → Bool) (l : List Char) :
    ∀ c, ((l.dropWhile p).head? = some c) → p c = false := by
  induction l with
  | nil =>
    intro c h
    simp [List.dropWhile] at h
  | cons a t ih =>
    intro c h
    by_cases hp : p a
    · simp only [List.dropWhile_cons, hp, if_true] at h
      exact ih c h
    · simp only [List.dropWhile_cons, hp, Bool.false_eq_true, if_false,
        List.head?_cons, Option.some.injEq] at h
      rw [← h]
      simpa using hp

theorem dropUnderscoresEnds_subset (l : List Char) :
    ∀ c, c ∈ dropUnderscoresEnds l → c ∈ l := by
  intro c hc
  unfold dropUnderscoresEnds at hc
  rw [List.mem_reverse] at hc
  have h1 := (List.dropWhile_suffix (fun c => c == '_')).sublist.subset hc
  rw [List.mem_reverse] at h1
  exact (List.dropWhile_suffix (fun c => c == '_')).sublist.subset h1

theorem dropUnderscoresEnds_getLast (l : List Char) :
    ∀ c, (dropUnderscoresEnds l).getLast? = some c → (c == '_') = false := by
  intro c hc
  unfold dropUnderscoresEnds at hc
  rw [List.getLast?_reverse] at hc
  exact dropWhile_head_not _ _ c hc

theorem dropUnderscoresEnds_head (l : List Char) :
    ∀ c, (dropUnderscoresEnds l).head? = some c → (c == '_') = false := by
  intro c hc
  unfold dropUnderscoresEnds at hc
  rw [List.head?_reverse] at hc
  set Y := (l.dropWhile (fun c => c == '_')).reverse with hY
  cases hZ : Y.dropWhile (fun c => c == '_') with
  | nil =>
    rw [hZ] at hc
    simp at hc
  | cons z zs =>
    rw [hZ] at hc
    have hsuffix : Y.dropWhile (fun c => c == '_') <:+ Y :=
      List.dropWhile_suffix (fun c => c == '_')
    obtain ⟨pre, hpre⟩ := hsuffix
    have hlast : Y.getLast? = some c := by
      rw [← hpre, List.getLast?_append_of_ne_nil pre (by rw [hZ]; simp), hZ]
      exact hc
    rw [hY, List.getLast?_reverse] at hlast
    exact dropWhile_head_not _ _ c hlast

theorem dropUnderscoresEnds_eq_self (l : List Char)
    (hhead : l.head? ≠ some '_') (hlast : l.getLast? ≠ some '_') :
    dropUnderscoresEnds l = l := by
  unfold dropUnderscoresEnds
  have hstep : ∀ (m : List Char), m.head? ≠ some '_' →
      m.dropWhile (fun c => c == '_') = m := by
    intro m hm
    cases m with
    | nil => rfl
    | cons a t =>
      rw [List.dropWhile_cons, if_neg]
      simp only [beq_iff_eq]
      intro ha
      exact hm (by rw [ha]; rfl)
  rw [hstep l hhead]
  rw [hstep l.reverse (by rw [List.head?_reverse]; exact hlast)]
  exact List.reverse_reverse l

theorem stripScheme_eq_self (l : List Char) (h : ':' ∉ l) : stripScheme l = l := by
  unfold stripScheme
  rw [if_neg, if_neg]
  · intro hcon
    rw [startsWithL_iff] at hcon
    exact h (hcon.subset (by decide))
  · intro hcon
    rw [startsWithL_iff] at hcon
    exact h (hcon.subset (by decide))



theorem sanitizeL_props (l : List Char) :
    (∀ c ∈ sanitizeL l, sanitizedChar c = true) ∧
    (sanitizeL l).head? ≠ some '_' ∧
    (sanitizeL l).getLast? ≠ some '_' ∧
    List.Chain' (fun a b => ¬(a = '_' ∧ b = '_')) (sanitizeL l) := by
  unfold sanitizeL collapseRuns
  set l1 := collapseRunsGo (fun c => !jsAlnum c) '_' false (stripScheme l) with hl1
  set l2 := dropUnderscoresEnds l1 with hl2
  set l3 := collapseRunsGo (fun c => c == '_') '_' false l2 with hl3
  have hmem3 : ∀ c ∈ l3, jsAlnum c = true ∨ c = '_' := by
    intro c hc
    rcases collapseGo_mem _ _ _ _ c hc with h | ⟨hm2, _⟩
    · exact Or.inr h
    · have hm1 := dropUnderscoresEnds_subset l1 c hm2
      rcases collapseGo_mem _ _ _ _ c hm1 with h | ⟨_, hp⟩
      · exact Or.inr h
      · left
        revert hp
        cases jsAlnum c <;> simp
  have hheads2 : ∀ d, l2.head? = some d → (fun c => c == '_') d = false :=
    fun d hd => dropUnderscoresEnds_head l1 d hd
  refine ⟨?_, ?_, ?_, ?_⟩
  · intro c hc
    rw [List.mem_map] at hc
    obtain ⟨c', hc', rfl⟩ := hc
    exact sanitizedChar_toLower c' (hmem3 c' hc')
  · intro hcon
    rw [List.head?_map] at hcon
    cases h3 : l3.head? with
    | none =>
      rw [h3] at hcon
      simp at hcon
    | some c' =>
      rw [h3] at hcon
      simp only [Option.map_some', Option.some.injEq] at hcon
      have hc' : c' = '_' := (toLower_underscore_iff c').mp hcon
      rw [collapseGo_head_neg (fun c => c == '_') '_' l2 hheads2] at h3
      have := hheads2 c' h3
      rw [hc'] at this
      simp at this
  · intro hcon
    rw [List.getLast?_map] at hcon
    cases h3 : l3.getLast? with
    | none =>
      rw [h3] at hcon
      simp at hcon
    | some c' =>
      rw [h3] at hcon
      simp only [Option.map_some', Option.some.injEq] at hcon
      have hc' : c' = '_' := (toLower_underscore_iff c').mp hcon
      cases h2 : l2.getLast? with
      | none =>
        have hnil : l2 = [] := by
          rcases hl : l2 with _ | ⟨x, xs⟩
          · rfl
          · rw [hl] at h2
            have : (x :: xs).getLast?.isSome = true := by
              simp
            rw [h2] at this
            simp at this
        rw [hl3, hnil] at h3
        rw [collapseGo_nil] at h3
        simp at h3
      | some d =>
        have hd := dropUnderscoresEnds_getLast l1 d h2
        have hg := collapseGo_getLast (fun c => c == '_') '_' l2 false d h2 hd
        rw [h3] at hg
        injection hg with hg
        rw [← hg, hc'] at hd
        simp at hd
  · rw [List.chain'_map]
    exact (collapseGo_chain (fun c => c == '_') '_' (by simp) false l2).imp
      (fun a b h hab => h ⟨(toLower_underscore_iff a).mp hab.1,
        (toLower_underscore_iff b).mp hab.2⟩)

theorem sanitizeL_eq_self (l : List Char)
    (hmem : ∀ c ∈ l, sanitizedChar c = true)
    (hhead : l.head? ≠ some '_')
    (hlast : l.getLast? ≠ some '_')
    (hchain : List.Chain' (fun a b => ¬(a = '_' ∧ b = '_')) l) :
    sanitizeL l = l := by
  unfold sanitizeL collapseRuns
  have hcolon : ':' ∉ l := by
    intro hc
    have h := hmem ':' hc
    rw [sanitizedChar_iff] at h
    revert h
    decide
  have hrep1 : ∀ c ∈ l, (fun c => !jsAlnum c) c = true → c = '_' := by
    intro c hc hpc
    have hs := hmem c hc
    rw [sanitizedChar_iff] at hs
    have halnum : jsAlnum c = false := by
      simpa using hpc
    have hnot : ¬((97 ≤ c.toNat ∧ c.toNat ≤ 122) ∨ (65 ≤ c.toNat ∧ c.toNat ≤ 90) ∨
        (48 ≤ c.toNat ∧ c.toNat ≤ 57)) := by
      rw [← jsAlnum_iff, halnum]
      simp
    rw [eq_underscore_iff]
    omega
  have hrep2 : ∀ c ∈ l, (fun c => c == '_') c = true → c = '_' := by
    intro c _ hpc
    simpa using hpc
  have hmap : ∀ c ∈ l, jsToLowerChar c = id c := fun c hc => toLower_fix c (hmem c hc)
  rw [stripScheme_eq_self l hcolon,
    collapseGo_eq_self (fun c => !jsAlnum c) '_' l false hrep1 hchain (by simp),
    dropUnderscoresEnds_eq_self l hhead hlast,
    collapseGo_eq_self (fun c => c == '_') '_' l false hrep2 hchain (by simp),
    List.map_congr_left hmap, List.map_id]



/-- C6: for every input string, `sanitize` produces a string over the
alphabet of lowercase letters, digits and underscores with no leading,
trailing or repeated underscore; it is idempotent; and the empty string
maps to the empty string without error. -/
theorem sanitize_spec (s : String) :
    (∀ c ∈ (sanitize s).toList, sanitizedChar c = true) ∧
    (sanitize s).toList.head? ≠ some '_' ∧
    (sanitize s).toList.getLast? ≠ some '_' ∧
    List.Chain' (fun a b => ¬(a = '_' ∧ b = '_')) (sanitize s).toList ∧
    sanitize (sanitize s) = sanitize s ∧
    sanitize "" = "" := by
  have hprops := sanitizeL_props s.toList
  refine ⟨hprops.1, hprops.2.1, hprops.2.2.1, hprops.2.2.2, ?_, rfl⟩
  have h1 : (sanitize (sanitize s)).data = sanitizeL ((sanitize s).toList) := rfl
  have h2 : (sanitize s).data = (sanitize s).toList := rfl
  have ht : (sanitize s).toList = sanitizeL s.toList := rfl
  apply String.ext
  rw [h1, h2, ht]
  exact sanitizeL_eq_self _ hprops.1 hprops.2.1 hprops.2.2.1 hprops.2.2.2

set_option maxRecDepth 100000 in
set_option maxHeartbeats 1000000 in
/-- Witness for C6: idempotence and the alphabet at a concrete messy
input. -/
theorem sanitize_spec_witness :
    sanitize (sanitize "http://Ab__c!") = sanitize "http://Ab__c!" ∧
    sanitizedChar 'a' = true :=
  ⟨(sanitize_spec "http://Ab__c!").2.2.2.2.1,
   (sanitize_spec "http://Ab__c!").1 'a' (by decide)⟩

end AxiosLogger
